import Mathlib

/-!
Verification development for the `naia` sequence buffer
(`src/shared/src/sequence_buffer.rs`).

Sequence numbers are Rust `u16` values, modelled as `Nat` together with
reduction `% 65536` exactly where the source performs a wrapping operation
(`wrapping_add`, `wrapping_sub`, `as u16` casts).  The two parallel slot
arrays are modelled as `List (Option Nat)` / `List (Option T)`; Rust's
indexing `xs[i]` on an in-bounds index is modelled by `List.getD i`, and
`xs[i] = v` by `List.set i v`.

Rust's `%` panics on a zero divisor (which `index` hits whenever the buffer
was built with capacity 0); the primary model below is total and is used
under a positive-capacity assumption, while a second, panic-aware model
(`checkedMod`, `indexP`, `existsP`, ...) returns `none` exactly where the
source aborts, and is proved to agree with the primary model whenever the
capacity is positive.
-/

set_option maxHeartbeats 1000000

/-- `sequence_greater_than` from the source: `s1` is cyclically ahead of `s2`.
Both guards make the `u16` subtractions non-underflowing, so plain `Nat`
subtraction is faithful. -/
def sequence_greater_than (s1 s2 : Nat) : Bool :=
  (decide (s1 > s2) && decide (s1 - s2 ≤ 32768)) ||
    (decide (s1 < s2) && decide (s2 - s1 > 32768))

/-- `sequence_less_than` from the source. -/
def sequence_less_than (s1 s2 : Nat) : Bool :=
  sequence_greater_than s2 s1

/-- `u16` wrapping subtraction `a.wrapping_sub(b)` for values below `2^16`. -/
def wsub (a b : Nat) : Nat :=
  (a % 65536 + 65536 - b % 65536) % 65536

/-- The sequence buffer: `sequence_num` is the head counter, and the two
parallel slot arrays (`entry_sequences` is the tag array). -/
structure SequenceBuffer (T : Type) where
  sequence_num : Nat
  entry_sequences : List (Option Nat)
  entries : List (Option T)
deriving DecidableEq

namespace SequenceBuffer

variable {T : Type}

/-- `with_capacity`: `size` empty slots, head 0. -/
def with_capacity (T : Type) (size : Nat) : SequenceBuffer T :=
  ⟨0, List.replicate size none, List.replicate size none⟩

/-- The buffer's capacity, `self.entry_sequences.len()` in the source. -/
def capacity (b : SequenceBuffer T) : Nat :=
  b.entry_sequences.length

/-- `index`: `sequence as usize % self.entry_sequences.len()`.  (In Rust this
panics when the capacity is zero; see `indexP` for the panic-aware model.) -/
def index (b : SequenceBuffer T) (sequence : Nat) : Nat :=
  sequence % b.capacity

/-- `exists`: the tag at slot `index sequence_num` equals `sequence_num`
exactly.  (Named `existsb` because `exists` is reserved in Lean.) -/
def existsb (b : SequenceBuffer T) (sequence_num : Nat) : Bool :=
  match b.entry_sequences.getD (b.index sequence_num) none with
  | some s => s == sequence_num
  | none => false

/-- `get`: the stored value iff `exists`. -/
def get (b : SequenceBuffer T) (sequence_num : Nat) : Option T :=
  if b.existsb sequence_num then b.entries.getD (b.index sequence_num) none
  else none

/-- `remove`: returns the removed value (if any) together with the updated
buffer (the source mutates in place and returns `Option<T>`). -/
def remove (b : SequenceBuffer T) (sequence_num : Nat) :
    Option T × SequenceBuffer T :=
  if b.existsb sequence_num then
    let i := b.index sequence_num
    (b.entries.getD i none,
      { b with entries := b.entries.set i none,
               entry_sequences := b.entry_sequences.set i none })
  else (none, b)

/-- The loop body of `remove_entries`: `self.remove(sequence as u16)` for each
`u32` value of the iterated range (the `as u16` cast is the `% 65536`). -/
def removeRange (b : SequenceBuffer T) : List Nat → SequenceBuffer T
  | [] => b
  | s :: rest => removeRange (b.remove (s % 65536)).2 rest

/-- `remove_entries`: widen to `u32`, adjust `finish` by `+ 65536` when it is
numerically below `start`, then either remove `start..=finish` one by one or
wipe every slot. -/
def remove_entries (b : SequenceBuffer T) (finish0 : Nat) : SequenceBuffer T :=
  let start := b.sequence_num
  let finish := if finish0 < start then finish0 + 65536 else finish0
  if finish - start < b.capacity then
    b.removeRange (List.range' start (finish - start + 1))
  else
    { b with entries := b.entries.map fun _ => none,
             entry_sequences := b.entry_sequences.map fun _ => none }

/-- `advance_sequence`: when `sequence_num + 1` is cyclically ahead of the
head, remove the swept entries and move the head to `sequence_num + 1`. -/
def advance_sequence (b : SequenceBuffer T) (sequence_num : Nat) :
    SequenceBuffer T :=
  if sequence_greater_than ((sequence_num + 1) % 65536) b.sequence_num then
    let b' := b.remove_entries sequence_num
    { b' with sequence_num := (sequence_num + 1) % 65536 }
  else b

/-- `insert`: reject when the sequence number is older than `head − C`, else
advance the window and write the tagged entry.  Returns the `bool` result
together with the updated buffer. -/
def insert (b : SequenceBuffer T) (sequence_num : Nat) (entry : T) :
    Bool × SequenceBuffer T :=
  if sequence_less_than sequence_num (wsub b.sequence_num b.capacity) then
    (false, b)
  else
    let b1 := b.advance_sequence sequence_num
    let i := b1.index sequence_num
    (true, { b1 with entry_sequences := b1.entry_sequences.set i (some sequence_num),
                     entries := b1.entries.set i (some entry) })

/-- `oldest`: `head.wrapping_sub(capacity as u16)`. -/
def oldest (b : SequenceBuffer T) : Nat :=
  wsub b.sequence_num b.capacity

/-- `clear`: reset the head and replace both arrays by all-`None` arrays of
the same length. -/
def clear (b : SequenceBuffer T) : SequenceBuffer T :=
  ⟨0, List.replicate b.capacity none, List.replicate b.capacity none⟩

/-- `remove_until`: plain ascending `u16` scan `oldest..finish` (exclusive,
empty when `finish ≤ oldest`), removing each number via `remove`. -/
def remove_until (b : SequenceBuffer T) (finish_sequence : Nat) :
    SequenceBuffer T :=
  b.removeRange (List.range' b.oldest (finish_sequence - b.oldest))

end SequenceBuffer

/-- The iterator state: the current `u16` index and the `usize` step counter.
(The source struct also holds the borrowed buffer; here the buffer is passed
to `next` explicitly.) -/
structure SequenceIterator where
  index : Nat
  count : Nat
deriving DecidableEq

/-- `iter`: start at `oldest()` with `count = capacity`. -/
def SequenceBuffer.iter {T : Type} (b : SequenceBuffer T) : SequenceIterator :=
  ⟨b.oldest, b.capacity⟩

/-- One call to `SequenceIterator::next`, with explicit fuel for the inner
`loop`: `none` means the loop was still running when the fuel ran out.  The
source's continuation guard is `self.count < 0` on a `usize`, which is never
true and is modelled verbatim; `self.count -= 1` wraps modulo `2^64`
(release-mode `usize` subtraction), and `self.index` wraps modulo `2^16`. -/
def SequenceIterator.next {T : Type} (b : SequenceBuffer T) :
    SequenceIterator → Nat → Option (Option T × SequenceIterator)
  | _, 0 => none
  | it, fuel + 1 =>
    if it.count < 0 then some (none, it)
    else
      let current_item := b.get it.index
      let it' : SequenceIterator :=
        ⟨(it.index + 1) % 65536, (it.count + (2 ^ 64 - 1)) % 2 ^ 64⟩
      match current_item with
      | some v => some (some v, it')
      | none => SequenceIterator.next b it' fuel

/-! ## Panic-aware model

Rust's `%` operator aborts on a zero divisor, and `SequenceBuffer::index`
divides by the capacity; the `...P` definitions below return `none` exactly
where the source program panics, and are proved (in `insertP_pos` etc.) to
agree with the total model above whenever the capacity is positive. -/

/-- `a % b` as Rust computes it: panics (`none`) when `b = 0`. -/
def checkedMod (a b : Nat) : Option Nat :=
  if b = 0 then none else some (a % b)

namespace SequenceBuffer

variable {T : Type}

/-- Panic-aware `index`. -/
def indexP (b : SequenceBuffer T) (sequence : Nat) : Option Nat :=
  checkedMod sequence b.capacity

/-- Panic-aware `exists`. -/
def existsP (b : SequenceBuffer T) (sequence_num : Nat) : Option Bool :=
  (b.indexP sequence_num).map fun i =>
    match b.entry_sequences.getD i none with
    | some s => s == sequence_num
    | none => false

/-- Panic-aware `get`. -/
def getP (b : SequenceBuffer T) (sequence_num : Nat) : Option (Option T) :=
  (b.existsP sequence_num).bind fun e =>
    if e then (b.indexP sequence_num).map fun i => b.entries.getD i none
    else some none

/-- Panic-aware `get_mut` (structurally the lookup performed by the source's
`get_mut`; the returned value stands for the mutable borrow). -/
def get_mutP (b : SequenceBuffer T) (sequence_num : Nat) : Option (Option T) :=
  (b.existsP sequence_num).bind fun e =>
    if e then (b.indexP sequence_num).map fun i => b.entries.getD i none
    else some none

/-- Panic-aware `remove`. -/
def removeP (b : SequenceBuffer T) (sequence_num : Nat) :
    Option (Option T × SequenceBuffer T) :=
  (b.existsP sequence_num).bind fun e =>
    if e then
      (b.indexP sequence_num).map fun i =>
        (b.entries.getD i none,
          { b with entries := b.entries.set i none,
                   entry_sequences := b.entry_sequences.set i none })
    else some (none, b)

/-- Panic-aware loop of `remove_entries` / `remove_until`. -/
def removeRangeP (b : SequenceBuffer T) : List Nat → Option (SequenceBuffer T)
  | [] => some b
  | s :: rest => (b.removeP (s % 65536)).bind fun r => removeRangeP r.2 rest

/-- Panic-aware `remove_entries`. -/
def remove_entriesP (b : SequenceBuffer T) (finish0 : Nat) :
    Option (SequenceBuffer T) :=
  let start := b.sequence_num
  let finish := if finish0 < start then finish0 + 65536 else finish0
  if finish - start < b.capacity then
    b.removeRangeP (List.range' start (finish - start + 1))
  else
    some { b with entries := b.entries.map fun _ => none,
                  entry_sequences := b.entry_sequences.map fun _ => none }

/-- Panic-aware `advance_sequence`. -/
def advance_sequenceP (b : SequenceBuffer T) (sequence_num : Nat) :
    Option (SequenceBuffer T) :=
  if sequence_greater_than ((sequence_num + 1) % 65536) b.sequence_num then
    (b.remove_entriesP sequence_num).map fun b' =>
      { b' with sequence_num := (sequence_num + 1) % 65536 }
  else some b

/-- Panic-aware `insert`. -/
def insertP (b : SequenceBuffer T) (sequence_num : Nat) (entry : T) :
    Option (Bool × SequenceBuffer T) :=
  if sequence_less_than sequence_num (wsub b.sequence_num b.capacity) then
    some (false, b)
  else
    (b.advance_sequenceP sequence_num).bind fun b1 =>
      (b1.indexP sequence_num).map fun i =>
        (true, { b1 with entry_sequences := b1.entry_sequences.set i (some sequence_num),
                         entries := b1.entries.set i (some entry) })

/-- Panic-aware `remove_until`. -/
def remove_untilP (b : SequenceBuffer T) (finish_sequence : Nat) :
    Option (SequenceBuffer T) :=
  b.removeRangeP (List.range' b.oldest (finish_sequence - b.oldest))

end SequenceBuffer

/-! ## List helper lemmas -/

lemma getD_set_self {α : Type} : ∀ (l : List α) (i : Nat) (v d : α),
    i < l.length → (l.set i v).getD i d = v := by
  intro l
  induction l with
  | nil => intro i v d h; simp at h
  | cons a t ih =>
    intro i v d h
    cases i with
    | zero => rfl
    | succ j =>
      simp only [List.set, List.getD, List.get?]
      exact ih j v d (by simpa using h)

lemma getD_set_ne {α : Type} : ∀ (l : List α) (i j : Nat) (v d : α),
    i ≠ j → (l.set i v).getD j d = l.getD j d := by
  intro l
  induction l with
  | nil => intro i j v d _; rfl
  | cons a t ih =>
    intro i j v d hij
    cases i with
    | zero =>
      cases j with
      | zero => exact absurd rfl hij
      | succ k => rfl
    | succ i' =>
      cases j with
      | zero => rfl
      | succ k =>
        simp only [List.set, List.getD, List.get?]
        exact ih i' k v d (fun h => hij (by rw [h]))

lemma getD_map_none {α β : Type} : ∀ (l : List α) (j : Nat),
    (l.map fun _ => (none : Option β)).getD j none = none := by
  intro l
  induction l with
  | nil => intro j; rfl
  | cons a t ih =>
    intro j
    cases j with
    | zero => rfl
    | succ k => exact ih k

lemma getD_replicate_none {α : Type} : ∀ (n j : Nat),
    (List.replicate n (none : Option α)).getD j none = none := by
  intro n
  induction n with
  | zero => intro j; rfl
  | succ m ih =>
    intro j
    cases j with
    | zero => rfl
    | succ k => exact ih k

namespace SequenceBuffer

variable {T : Type}

/-! ## Shape preservation lemmas -/

lemma capacity_with_capacity (n : Nat) :
    (with_capacity T n).capacity = n := by
  simp [with_capacity, capacity]

lemma remove_tags_length (b : SequenceBuffer T) (s : Nat) :
    (b.remove s).2.entry_sequences.length = b.entry_sequences.length := by
  unfold remove
  by_cases h : b.existsb s = true <;> simp [h]

lemma remove_entries_length (b : SequenceBuffer T) (s : Nat) :
    (b.remove s).2.entries.length = b.entries.length := by
  unfold remove
  by_cases h : b.existsb s = true <;> simp [h]

lemma remove_sequence_num (b : SequenceBuffer T) (s : Nat) :
    (b.remove s).2.sequence_num = b.sequence_num := by
  unfold remove
  by_cases h : b.existsb s = true <;> simp [h]

lemma removeRange_tags_length (L : List Nat) : ∀ (b : SequenceBuffer T),
    (b.removeRange L).entry_sequences.length = b.entry_sequences.length := by
  induction L with
  | nil => intro b; rfl
  | cons x rest ih =>
    intro b
    rw [removeRange, ih, remove_tags_length]

lemma removeRange_entries_length (L : List Nat) : ∀ (b : SequenceBuffer T),
    (b.removeRange L).entries.length = b.entries.length := by
  induction L with
  | nil => intro b; rfl
  | cons x rest ih =>
    intro b
    rw [removeRange, ih, remove_entries_length]

lemma removeRange_sequence_num (L : List Nat) : ∀ (b : SequenceBuffer T),
    (b.removeRange L).sequence_num = b.sequence_num := by
  induction L with
  | nil => intro b; rfl
  | cons x rest ih =>
    intro b
    rw [removeRange, ih, remove_sequence_num]

lemma remove_entries_tags_length (b : SequenceBuffer T) (f : Nat) :
    (b.remove_entries f).entry_sequences.length = b.entry_sequences.length := by
  by_cases h : (if f < b.sequence_num then f + 65536 else f) - b.sequence_num < b.entry_sequences.length
  · simp [remove_entries, capacity, h, removeRange_tags_length]
  · simp [remove_entries, capacity, h]

lemma remove_entries_entries_length (b : SequenceBuffer T) (f : Nat) :
    (b.remove_entries f).entries.length = b.entries.length := by
  by_cases h : (if f < b.sequence_num then f + 65536 else f) - b.sequence_num < b.entry_sequences.length
  · simp [remove_entries, capacity, h, removeRange_entries_length]
  · simp [remove_entries, capacity, h]

lemma advance_sequence_tags_length (b : SequenceBuffer T) (s : Nat) :
    (b.advance_sequence s).entry_sequences.length = b.entry_sequences.length := by
  unfold advance_sequence
  by_cases h : sequence_greater_than ((s + 1) % 65536) b.sequence_num = true <;>
    simp only [h, if_true, if_false, ite_true, ite_false]
  · exact remove_entries_tags_length b s
  · rfl

lemma advance_sequence_entries_length (b : SequenceBuffer T) (s : Nat) :
    (b.advance_sequence s).entries.length = b.entries.length := by
  unfold advance_sequence
  by_cases h : sequence_greater_than ((s + 1) % 65536) b.sequence_num = true <;>
    simp only [h, if_true, if_false, ite_true, ite_false]
  · exact remove_entries_entries_length b s
  · rfl

lemma advance_sequence_capacity (b : SequenceBuffer T) (s : Nat) :
    (b.advance_sequence s).capacity = b.capacity := by
  simp [capacity, advance_sequence_tags_length]

end SequenceBuffer

namespace SequenceBuffer

variable {T : Type}

/-! ## Characterising `exists` and removal -/

lemma getD_some_lt {α : Type} : ∀ (l : List (Option α)) (i : Nat) (x : α),
    l.getD i none = some x → i < l.length := by
  intro l
  induction l with
  | nil => intro i x h; exact Option.noConfusion h
  | cons a t ih =>
    intro i x h
    cases i with
    | zero => simp
    | succ j => exact Nat.succ_lt_succ (ih j x h)

lemma existsb_iff (b : SequenceBuffer T) (q : Nat) :
    b.existsb q = true ↔ b.entry_sequences.getD (b.index q) none = some q := by
  unfold existsb
  cases h : b.entry_sequences.getD (b.index q) none with
  | none => simp
  | some s => simp [beq_iff_eq]

lemma remove_capacity (b : SequenceBuffer T) (s : Nat) :
    (b.remove s).2.capacity = b.capacity := by
  simp [capacity, remove_tags_length]

lemma remove_tags (b : SequenceBuffer T) (s : Nat) (h : b.existsb s = true) :
    (b.remove s).2.entry_sequences = b.entry_sequences.set (b.index s) none := by
  rw [remove]
  simp [h]

lemma remove_tags_of_not (b : SequenceBuffer T) (s : Nat)
    (h : ¬ b.existsb s = true) : (b.remove s).2 = b := by
  rw [remove]
  simp [h]

lemma remove_kills (b : SequenceBuffer T) (q : Nat) :
    ((b.remove q).2).existsb q = false := by
  by_cases h : b.existsb q = true
  · have hq := (existsb_iff b q).1 h
    have hlt : b.index q < b.entry_sequences.length := getD_some_lt _ _ _ hq
    apply Bool.eq_false_iff.2
    intro hc
    have hc' := (existsb_iff _ q).1 hc
    have hidx : (b.remove q).2.index q = b.index q := by
      rw [index, remove_capacity]; rfl
    rw [remove_tags b q h, hidx, getD_set_self _ _ _ _ hlt] at hc'
    exact Option.noConfusion hc'
  · rw [remove_tags_of_not b q h]
    exact Bool.eq_false_iff.2 h

lemma remove_existsb_mono (b : SequenceBuffer T) (x q : Nat) :
    ((b.remove x).2).existsb q = true → b.existsb q = true := by
  intro hc
  by_cases h : b.existsb x = true
  · have hc' := (existsb_iff _ q).1 hc
    have hidx : (b.remove x).2.index q = b.index q := by
      rw [index, remove_capacity]; rfl
    rw [remove_tags b x h, hidx] at hc'
    by_cases he : b.index x = b.index q
    · have hlt : b.index x < b.entry_sequences.length :=
        getD_some_lt _ _ _ ((existsb_iff b x).1 h)
      rw [← he, getD_set_self _ _ _ _ hlt] at hc'
      exact Option.noConfusion hc'
    · rw [getD_set_ne _ _ _ _ _ he] at hc'
      exact (existsb_iff b q).2 hc'
  · rw [remove_tags_of_not b x h] at hc
    exact hc

lemma removeRange_existsb_mono (L : List Nat) : ∀ (b : SequenceBuffer T) (q : Nat),
    (b.removeRange L).existsb q = true → b.existsb q = true := by
  induction L with
  | nil => intro b q h; exact h
  | cons x rest ih =>
    intro b q h
    rw [removeRange] at h
    exact remove_existsb_mono b (x % 65536) q (ih _ q h)

lemma removeRange_kills (L : List Nat) : ∀ (b : SequenceBuffer T) (q : Nat),
    (∃ x ∈ L, x % 65536 = q) → (b.removeRange L).existsb q = false := by
  induction L with
  | nil =>
    intro b q h
    obtain ⟨x, hx, _⟩ := h
    exact absurd hx (List.not_mem_nil x)
  | cons y rest ih =>
    intro b q h
    obtain ⟨x, hx, hxq⟩ := h
    rw [removeRange]
    rcases List.mem_cons.1 hx with h1 | h2
    · subst h1
      apply Bool.eq_false_iff.2
      intro hc
      have hm := removeRange_existsb_mono rest _ q hc
      rw [hxq, remove_kills] at hm
      exact Bool.noConfusion hm
    · exact ih _ q ⟨x, h2, hxq⟩

end SequenceBuffer

namespace SequenceBuffer

variable {T : Type}

/-! ## Agreement of the panic-aware model with the total model
whenever the capacity is positive -/

lemma indexP_pos (b : SequenceBuffer T) (s : Nat) (h : 0 < b.capacity) :
    b.indexP s = some (b.index s) := by
  unfold indexP checkedMod index
  rw [if_neg (Nat.pos_iff_ne_zero.1 h)]

lemma existsP_pos (b : SequenceBuffer T) (s : Nat) (h : 0 < b.capacity) :
    b.existsP s = some (b.existsb s) := by
  unfold existsP existsb
  rw [indexP_pos b s h]
  rfl

lemma getP_pos (b : SequenceBuffer T) (s : Nat) (h : 0 < b.capacity) :
    b.getP s = some (b.get s) := by
  unfold getP get
  rw [existsP_pos b s h]
  by_cases he : b.existsb s = true
  · simp [he, indexP_pos b s h]
  · simp [he]

lemma get_mutP_pos (b : SequenceBuffer T) (s : Nat) (h : 0 < b.capacity) :
    b.get_mutP s = some (b.get s) := by
  unfold get_mutP get
  rw [existsP_pos b s h]
  by_cases he : b.existsb s = true
  · simp [he, indexP_pos b s h]
  · simp [he]

lemma removeP_pos (b : SequenceBuffer T) (s : Nat) (h : 0 < b.capacity) :
    b.removeP s = some (b.remove s) := by
  unfold removeP remove
  rw [existsP_pos b s h]
  by_cases he : b.existsb s = true
  · simp [he, indexP_pos b s h]
  · simp [he]

lemma removeRangeP_pos (L : List Nat) : ∀ (b : SequenceBuffer T), 0 < b.capacity →
    b.removeRangeP L = some (b.removeRange L) := by
  induction L with
  | nil => intro b _; rfl
  | cons x rest ih =>
    intro b h
    rw [removeRangeP, removeRange, removeP_pos b _ h]
    exact ih _ (by rw [remove_capacity]; exact h)

lemma remove_entriesP_pos (b : SequenceBuffer T) (f : Nat) (h : 0 < b.capacity) :
    b.remove_entriesP f = some (b.remove_entries f) := by
  by_cases hc : (if f < b.sequence_num then f + 65536 else f) - b.sequence_num < b.capacity
  · simp only [remove_entriesP, remove_entries, hc, if_true, ite_true]
    exact removeRangeP_pos _ b h
  · simp [remove_entriesP, remove_entries, hc]

lemma advance_sequenceP_pos (b : SequenceBuffer T) (s : Nat) (h : 0 < b.capacity) :
    b.advance_sequenceP s = some (b.advance_sequence s) := by
  by_cases hg : sequence_greater_than ((s + 1) % 65536) b.sequence_num = true
  · simp [advance_sequenceP, advance_sequence, hg, remove_entriesP_pos b s h]
  · simp [advance_sequenceP, advance_sequence, hg]

lemma insertP_pos (b : SequenceBuffer T) (s : Nat) (v : T) (h : 0 < b.capacity) :
    b.insertP s v = some (b.insert s v) := by
  by_cases hs : sequence_less_than s (wsub b.sequence_num b.capacity) = true
  · simp [insertP, insert, hs]
  · have h1 : 0 < (b.advance_sequence s).capacity := by
      rw [advance_sequence_capacity]; exact h
    simp [insertP, insert, hs, advance_sequenceP_pos b s h, indexP_pos _ s h1]

lemma remove_untilP_pos (b : SequenceBuffer T) (f : Nat) (h : 0 < b.capacity) :
    b.remove_untilP f = some (b.remove_until f) := by
  unfold remove_untilP remove_until
  exact removeRangeP_pos _ b h

end SequenceBuffer

namespace SequenceBuffer

variable {T : Type}

/-! ## Unfolding equations (zeta-reduced forms of the source functions) -/

lemma remove_entries_eq (b : SequenceBuffer T) (f : Nat) :
    b.remove_entries f =
      if (if f < b.sequence_num then f + 65536 else f) - b.sequence_num < b.capacity then
        b.removeRange (List.range' b.sequence_num
          ((if f < b.sequence_num then f + 65536 else f) - b.sequence_num + 1))
      else
        { b with entries := b.entries.map fun _ => none,
                 entry_sequences := b.entry_sequences.map fun _ => none } := rfl

lemma advance_sequence_eq (b : SequenceBuffer T) (s : Nat) :
    b.advance_sequence s =
      if sequence_greater_than ((s + 1) % 65536) b.sequence_num then
        { b.remove_entries s with sequence_num := (s + 1) % 65536 }
      else b := rfl

lemma insert_eq (b : SequenceBuffer T) (s : Nat) (v : T) :
    b.insert s v =
      if sequence_less_than s (wsub b.sequence_num b.capacity) then (false, b)
      else
        (true, { b.advance_sequence s with
          entry_sequences :=
            (b.advance_sequence s).entry_sequences.set
              ((b.advance_sequence s).index s) (some s),
          entries :=
            (b.advance_sequence s).entries.set
              ((b.advance_sequence s).index s) (some v) }) := rfl

/-! ## Eviction lemmas for `remove_entries` -/

lemma remove_entries_kills (b : SequenceBuffer T) (s q : Nat)
    (hhead : b.sequence_num < 65536) (hq : q < 65536)
    (hle : (if q < b.sequence_num then q + 65536 else q) ≤
           (if s < b.sequence_num then s + 65536 else s))
    (hloop : (if s < b.sequence_num then s + 65536 else s) - b.sequence_num
      < b.capacity) :
    (b.remove_entries s).existsb q = false := by
  rw [remove_entries_eq, if_pos hloop]
  apply removeRange_kills
  refine ⟨if q < b.sequence_num then q + 65536 else q, ?_, ?_⟩
  · rw [List.mem_range'_1]
    by_cases h1 : q < b.sequence_num <;> by_cases h2 : s < b.sequence_num <;>
      simp only [h1, h2, if_true, if_false, ite_true, ite_false] at hle ⊢ <;> omega
  · by_cases h1 : q < b.sequence_num <;>
      simp only [h1, if_true, if_false, ite_true, ite_false] <;> omega

lemma remove_entries_wipe_kills (b : SequenceBuffer T) (s q : Nat)
    (hwipe : ¬ ((if s < b.sequence_num then s + 65536 else s) - b.sequence_num
      < b.capacity)) :
    (b.remove_entries s).existsb q = false := by
  rw [remove_entries_eq, if_neg hwipe]
  apply Bool.eq_false_iff.2
  intro hcc
  have h := (existsb_iff _ q).1 hcc
  rw [getD_map_none] at h
  exact Option.noConfusion h

/-! ## The slot written by a successful `insert` -/

lemma write_existsb (hn s : Nat) (tags : List (Option Nat)) (x : List (Option T))
    (hlen : 0 < tags.length) :
    (SequenceBuffer.mk hn (tags.set (s % tags.length) (some s)) x).existsb s
      = true := by
  unfold existsb index capacity
  simp only [List.length_set]
  rw [getD_set_self _ _ _ _ (Nat.mod_lt s hlen)]
  simp

lemma write_get (hn s : Nat) (tags : List (Option Nat)) (ents : List (Option T))
    (v : T) (hlen : 0 < tags.length) (hel : ents.length = tags.length) :
    (SequenceBuffer.mk hn (tags.set (s % tags.length) (some s))
      (ents.set (s % tags.length) (some v))).get s = some v := by
  unfold get
  rw [write_existsb hn s tags _ hlen]
  simp only [if_true, ite_true]
  unfold index capacity
  simp only [List.length_set]
  exact getD_set_self _ _ _ _ (by rw [hel]; exact Nat.mod_lt s hlen)

lemma insert_snd_eq (b : SequenceBuffer T) (s : Nat) (v : T)
    (hrej : sequence_less_than s (wsub b.sequence_num b.capacity) = false) :
    (b.insert s v).2 = SequenceBuffer.mk (b.advance_sequence s).sequence_num
      ((b.advance_sequence s).entry_sequences.set
        ((b.advance_sequence s).index s) (some s))
      ((b.advance_sequence s).entries.set
        ((b.advance_sequence s).index s) (some v)) := by
  rw [insert_eq, if_neg (by simp [hrej])]

lemma write_existsb_other (hn q s : Nat) (tags : List (Option Nat))
    (x : List (Option T)) (hlen : 0 < tags.length) (hqs : q ≠ s)
    (hold : ¬ tags.getD (q % tags.length) none = some q) :
    (SequenceBuffer.mk hn (tags.set (s % tags.length) (some s)) x).existsb q
      = false := by
  apply Bool.eq_false_iff.2
  intro hc
  have hc' := (existsb_iff _ q).1 hc
  have hidx : (SequenceBuffer.mk hn (tags.set (s % tags.length) (some s)) x).index q
      = q % tags.length := by
    unfold index capacity
    simp [List.length_set]
  have hproj : (SequenceBuffer.mk hn (tags.set (s % tags.length) (some s))
      x).entry_sequences = tags.set (s % tags.length) (some s) := rfl
  rw [hidx, hproj] at hc'
  by_cases he : s % tags.length = q % tags.length
  · rw [← he, getD_set_self _ _ _ _ (Nat.mod_lt s hlen)] at hc'
    exact hqs (Option.some.inj hc').symm
  · rw [getD_set_ne _ _ _ _ _ he] at hc'
    exact hold hc'

lemma insert_existsb_other (b : SequenceBuffer T) (s q : Nat) (v : T)
    (hcap : 0 < b.capacity) (hqs : q ≠ s)
    (hrej : sequence_less_than s (wsub b.sequence_num b.capacity) = false)
    (hadv : sequence_greater_than ((s + 1) % 65536) b.sequence_num = true)
    (hkilled : (b.remove_entries s).existsb q = false) :
    (b.insert s v).2.existsb q = false := by
  rw [insert_snd_eq b s v hrej]
  have hcap1 : 0 < (b.advance_sequence s).entry_sequences.length := by
    rw [advance_sequence_tags_length]; exact hcap
  apply write_existsb_other _ q s _ _ hcap1 hqs
  intro hold
  have hadvq : (b.advance_sequence s).existsb q = true := (existsb_iff _ q).2 hold
  rw [advance_sequence_eq, if_pos hadv] at hadvq
  have h2 : (b.remove_entries s).existsb q = true := hadvq
  rw [hkilled] at h2
  exact Bool.noConfusion h2

end SequenceBuffer

/-! ## Claim theorems -/

/-- The capacity-4 buffer obtained by inserting sequence numbers
0, 1, 2, 3 and then 5 (skipping 4) into a fresh buffer. -/
def staleBuf : SequenceBuffer Nat :=
  (((((((SequenceBuffer.with_capacity Nat 4).insert 0 100).2.insert 1 101).2.insert
    2 102).2.insert 3 103).2).insert 5 105).2

/-- C1: the claimed window invariant fails on the code.  After inserting
0, 1, 2, 3 and then 5 into a capacity-4 buffer the window is `[2, 6)`
(`oldest() = 2`, `head = 6`), yet `exists(0)` is still true and `get(0)`
still returns the stored value: the window advanced past sequence number 0
but the entry remained observable, because `remove_entries` sweeps the new
sequence numbers `[head, seq]` with a tag-guarded `remove` that cannot match
the stale tags. -/
theorem c1_stale_entry_survives_window :
    staleBuf.existsb 0 = true ∧
    staleBuf.get 0 = some 100 ∧
    staleBuf.oldest = 2 ∧
    staleBuf.sequence_num = 6 ∧
    ¬ (0 + 65536 - staleBuf.oldest) % 65536 < staleBuf.capacity := by
  decide

/-- C2 counterexample: on a fresh capacity-4 buffer, `insert(32764, v)` has
`greater_than(seq + 1, head) = greater_than(32765, 0) = true`, yet the call
is rejected (32764 is below `head − C` by the half-range rule), evicts
nothing and leaves `head = 0` instead of setting it to `seq + 1`. -/
theorem c2_counterexample :
    sequence_greater_than ((32764 + 1) % 65536)
      (SequenceBuffer.with_capacity Nat 4).sequence_num = true ∧
    ((SequenceBuffer.with_capacity Nat 4).insert 32764 7).1 = false ∧
    ((SequenceBuffer.with_capacity Nat 4).insert 32764 7).2
      = SequenceBuffer.with_capacity Nat 4 ∧
    ¬ ((SequenceBuffer.with_capacity Nat 4).insert 32764 7).2.sequence_num
      = (32764 + 1) % 65536 := by
  decide

/-- C2 (amended): when `insert(seq, value)` is called with
`greater_than(seq + 1, head)` true AND the call is not rejected
(`less_than(seq, head − C)` false), it evicts every entry whose sequence
number lies in the inclusive cyclic range `[head, seq]` (other than `seq`
itself, which is re-inserted), wipes all `C` slots outright when the
difference `seq − head` (adjusted by `+ 65536` when `seq < head`) is at
least `C`, and sets `head = seq + 1`. -/
theorem c2_amended_eviction {T : Type} (b : SequenceBuffer T) (s : Nat) (v : T)
    (hcap : 0 < b.capacity) (hhead : b.sequence_num < 65536)
    (hrej : sequence_less_than s (wsub b.sequence_num b.capacity) = false)
    (hadv : sequence_greater_than ((s + 1) % 65536) b.sequence_num = true) :
    (b.insert s v).2.sequence_num = (s + 1) % 65536 ∧
    (∀ q, q < 65536 → q ≠ s →
      (if q < b.sequence_num then q + 65536 else q) ≤
        (if s < b.sequence_num then s + 65536 else s) →
      (b.insert s v).2.existsb q = false) ∧
    (b.capacity ≤ (if s < b.sequence_num then s + 65536 else s) - b.sequence_num →
      ∀ q, q ≠ s → (b.insert s v).2.existsb q = false) := by
  refine ⟨?_, ?_, ?_⟩
  · rw [SequenceBuffer.insert_snd_eq b s v hrej]
    show (b.advance_sequence s).sequence_num = (s + 1) % 65536
    rw [SequenceBuffer.advance_sequence_eq, if_pos hadv]
  · intro q hq hqs hle
    by_cases hloop : (if s < b.sequence_num then s + 65536 else s) - b.sequence_num
        < b.capacity
    · exact SequenceBuffer.insert_existsb_other b s q v hcap hqs hrej hadv
        (SequenceBuffer.remove_entries_kills b s q hhead hq hle hloop)
    · exact SequenceBuffer.insert_existsb_other b s q v hcap hqs hrej hadv
        (SequenceBuffer.remove_entries_wipe_kills b s q hloop)
  · intro hw q hqs
    exact SequenceBuffer.insert_existsb_other b s q v hcap hqs hrej hadv
      (SequenceBuffer.remove_entries_wipe_kills b s q (Nat.not_lt.2 hw))

/-- C2 witness: the amended statement applied to a fresh capacity-4 buffer
and `seq = 0`. -/
theorem c2_amended_eviction_witness :
    ((SequenceBuffer.with_capacity Nat 4).insert 0 7).2.sequence_num
      = (0 + 1) % 65536 :=
  (c2_amended_eviction (SequenceBuffer.with_capacity Nat 4) 0 7 (by decide)
    (by decide) (by decide) (by decide)).1

/-- C5: the comparator computes exactly the claimed formula, `less_than` is
its transpose, the two are mutually exclusive and exhaustive on distinct
values, and at numeric distance exactly 32768 the asymmetric tie-break of
the formula is preserved (`greater_than(32768, 0)` but not
`greater_than(0, 32768)`). -/
theorem c5_comparator_totality :
    (∀ a b : Nat, a < 65536 → b < 65536 →
      ((sequence_greater_than a b = true ↔
        ((b < a ∧ a - b ≤ 32768) ∨ (a < b ∧ 32768 < b - a))) ∧
       sequence_less_than a b = sequence_greater_than b a ∧
       (a ≠ b → (sequence_greater_than a b = true ↔
         ¬ sequence_less_than a b = true)))) ∧
    sequence_greater_than 32768 0 = true ∧
    sequence_greater_than 0 32768 = false := by
  refine ⟨fun a b _ _ => ⟨?_, rfl, fun hne => ?_⟩, by decide, by decide⟩
  · simp only [sequence_greater_than, Bool.or_eq_true, Bool.and_eq_true,
      decide_eq_true_eq, gt_iff_lt]
  · simp only [sequence_greater_than, sequence_less_than, Bool.or_eq_true,
      Bool.and_eq_true, decide_eq_true_eq, gt_iff_lt]
    omega

/-- C5 witness: the comparator facts instantiated at `a = 3`, `b = 5`. -/
theorem c5_comparator_totality_witness :
    (3 < 65536 ∧ 5 < 65536) ∧ sequence_less_than 3 5 = sequence_greater_than 5 3 :=
  ⟨⟨by decide, by decide⟩,
    (c5_comparator_totality.1 3 5 (by decide) (by decide)).2.1⟩

/-- C6: `insert` returns `false` exactly when `less_than(seq, head − C)`
holds at call time (in the panic-aware model, so this covers capacity 0 as
well), and whenever it returns `false` the buffer is completely unchanged. -/
theorem c6_insert_rejection {T : Type} (b : SequenceBuffer T) (s : Nat) (v : T) :
    ((b.insertP s v).map Prod.fst = some false ↔
      sequence_less_than s b.oldest = true) ∧
    (∀ r, b.insertP s v = some (false, r) → r = b) := by
  constructor
  · constructor
    · intro h
      by_cases hs : sequence_less_than s (wsub b.sequence_num b.capacity) = true
      · exact hs
      · exfalso
        rw [SequenceBuffer.insertP, if_neg hs] at h
        cases ho : b.advance_sequenceP s with
        | none => rw [ho] at h; simp at h
        | some b1 =>
          rw [ho] at h
          simp only [Option.some_bind] at h
          cases hi : b1.indexP s with
          | none => rw [hi] at h; simp at h
          | some i => rw [hi] at h; simp at h
    · intro h
      rw [SequenceBuffer.oldest] at h
      rw [SequenceBuffer.insertP, if_pos h]
      rfl
  · intro r hr
    by_cases hs : sequence_less_than s (wsub b.sequence_num b.capacity) = true
    · rw [SequenceBuffer.insertP, if_pos hs] at hr
      simp at hr
      exact hr.symm
    · exfalso
      rw [SequenceBuffer.insertP, if_neg hs] at hr
      cases ho : b.advance_sequenceP s with
      | none => rw [ho] at hr; simp at hr
      | some b1 =>
        rw [ho] at hr
        simp only [Option.some_bind] at hr
        cases hi : b1.indexP s with
        | none => rw [hi] at hr; simp at hr
        | some i => rw [hi] at hr; simp at hr

/-- C6 witness: a fresh capacity-3 buffer rejects `insert(32765, 7)`
(32765 is below `head − C = 65533` by the half-range rule). -/
theorem c6_insert_rejection_witness :
    ((SequenceBuffer.with_capacity Nat 3).insertP 32765 7).map Prod.fst
      = some false :=
  (c6_insert_rejection (SequenceBuffer.with_capacity Nat 3) 32765 7).1.2
    (by decide)

/-- C7 counterexample: on a buffer constructed with capacity 0, the claimed
precondition holds (`less_than(0, head − C)` is false), yet `insert(0, v)`
does not return `true` — it panics in the slot-index modulo (the panic-aware
model returns `none`). -/
theorem c7_counterexample :
    sequence_less_than 0 (SequenceBuffer.with_capacity Nat 0).oldest = false ∧
    (SequenceBuffer.with_capacity Nat 0).insertP 0 7 = none := by
  decide

/-- C7 (amended): for buffers of positive capacity (with the two parallel
arrays of equal length), `insert(seq, v)` with `seq` not older than
`head − C` returns `true`, and immediately afterwards `exists(seq)` holds
and `get(seq)` returns the stored value. -/
theorem c7_insert_acceptance {T : Type} (b : SequenceBuffer T) (s : Nat) (v : T)
    (hcap : 0 < b.capacity)
    (hlen : b.entries.length = b.entry_sequences.length)
    (hrej : sequence_less_than s b.oldest = false) :
    (b.insert s v).1 = true ∧
    (b.insert s v).2.existsb s = true ∧
    (b.insert s v).2.get s = some v := by
  rw [SequenceBuffer.oldest] at hrej
  have h1 : 0 < (b.advance_sequence s).entry_sequences.length := by
    rw [SequenceBuffer.advance_sequence_tags_length]; exact hcap
  have h2 : (b.advance_sequence s).entries.length
      = (b.advance_sequence s).entry_sequences.length := by
    rw [SequenceBuffer.advance_sequence_tags_length,
      SequenceBuffer.advance_sequence_entries_length, hlen]
  refine ⟨?_, ?_, ?_⟩
  · rw [SequenceBuffer.insert_eq, if_neg (by simp [hrej])]
  · rw [SequenceBuffer.insert_snd_eq b s v hrej]
    exact SequenceBuffer.write_existsb _ s _ _ h1
  · rw [SequenceBuffer.insert_snd_eq b s v hrej]
    exact SequenceBuffer.write_get _ s _ _ v h1 h2

/-- C7 witness: inserting into a fresh capacity-4 buffer stores and returns
the value. -/
theorem c7_insert_acceptance_witness :
    ((SequenceBuffer.with_capacity Nat 4).insert 0 7).2.get 0 = some 7 :=
  (c7_insert_acceptance (SequenceBuffer.with_capacity Nat 4) 0 7 (by decide)
    (by decide) (by decide)).2.2

/-- C9 counterexample: `exists` is not total at construction capacity 0 —
the slot-index modulo divides by zero and the call aborts (the panic-aware
model returns `none`). -/
theorem c9_counterexample :
    (SequenceBuffer.with_capacity Nat 0).existsP 0 = none ∧
    (SequenceBuffer.with_capacity Nat 0).capacity = 0 := by
  decide

/-- C9 (amended): for every construction capacity at least 1, the indexing
operations `exists`, `get`, `get_mut`, `insert`, `remove` and `remove_until`
are total — in the panic-aware model they always return a result — and
signal absence or rejection only through `Option` results or a boolean.
(`with_capacity`, `sequence_num`, `oldest` and `clear` perform no slot
indexing and are total at every capacity; the iterator is excluded, its
miscoded guard being settled separately.) -/
theorem c9_totality_above_zero {T : Type} (b : SequenceBuffer T) (s f : Nat)
    (v : T) (hcap : 0 < b.capacity) :
    (b.existsP s).isSome = true ∧ (b.getP s).isSome = true ∧
    (b.get_mutP s).isSome = true ∧ (b.insertP s v).isSome = true ∧
    (b.removeP s).isSome = true ∧ (b.remove_untilP f).isSome = true := by
  refine ⟨?_, ?_, ?_, ?_, ?_, ?_⟩
  · rw [SequenceBuffer.existsP_pos b s hcap]; rfl
  · rw [SequenceBuffer.getP_pos b s hcap]; rfl
  · rw [SequenceBuffer.get_mutP_pos b s hcap]; rfl
  · rw [SequenceBuffer.insertP_pos b s v hcap]; rfl
  · rw [SequenceBuffer.removeP_pos b s hcap]; rfl
  · rw [SequenceBuffer.remove_untilP_pos b f hcap]; rfl

/-- C9 witness: the totality facts instantiated on a fresh capacity-4
buffer. -/
theorem c9_totality_above_zero_witness :
    ((SequenceBuffer.with_capacity Nat 4).existsP 9).isSome = true :=
  (c9_totality_above_zero (SequenceBuffer.with_capacity Nat 4) 9 0 (5 : Nat)
    (by decide)).1

/-! ## Iterator lemmas -/

/-- One unfolding of `SequenceIterator::next`: the `count < 0` guard on the
unsigned counter is never true, so an iteration step either yields the
current slot's value or recurses on the advanced state. -/
lemma next_step {T : Type} (b : SequenceBuffer T) (i c fuel : Nat) :
    SequenceIterator.next b ⟨i, c⟩ (fuel + 1)
      = match b.get i with
        | some v =>
            some (some v, ⟨(i + 1) % 65536, (c + (2 ^ 64 - 1)) % 2 ^ 64⟩)
        | none =>
            SequenceIterator.next b
              ⟨(i + 1) % 65536, (c + (2 ^ 64 - 1)) % 2 ^ 64⟩ fuel := by
  rw [SequenceIterator.next, if_neg (by omega)]

lemma with_capacity_existsb (T : Type) (n q : Nat) :
    (SequenceBuffer.with_capacity T n).existsb q = false := by
  unfold SequenceBuffer.existsb
  rw [show (SequenceBuffer.with_capacity T n).entry_sequences
    = List.replicate n none from rfl, getD_replicate_none]

lemma with_capacity_get (T : Type) (n q : Nat) :
    (SequenceBuffer.with_capacity T n).get q = none := by
  unfold SequenceBuffer.get
  rw [with_capacity_existsb]
  simp

lemma next_empty_none (T : Type) (n : Nat) : ∀ (fuel i c : Nat),
    SequenceIterator.next (SequenceBuffer.with_capacity T n) ⟨i, c⟩ fuel
      = none := by
  intro fuel
  induction fuel with
  | zero => intro i c; rfl
  | succ f ih =>
    intro i c
    rw [next_step, with_capacity_get]
    exact ih _ _

/-- C3: the iterator's loop never exits on a buffer with no occupied slot.
On a fresh capacity-4 buffer, `iter().next()` fails to return within any
number of loop iterations: the continuation guard `count < 0` compares an
unsigned counter against zero and is never true, so the loop neither
terminates after `C = 4` advances (as the claim states) nor ever — in a
debug build the `count -= 1` underflow aborts instead. -/
theorem c3_iterator_never_terminates :
    ∀ fuel : Nat,
      SequenceIterator.next (SequenceBuffer.with_capacity Nat 4)
        (SequenceBuffer.with_capacity Nat 4).iter fuel = none := by
  intro fuel
  have h : (SequenceBuffer.with_capacity Nat 4).iter
      = (⟨65532, 4⟩ : SequenceIterator) := by decide
  rw [h]
  exact next_empty_none Nat 4 fuel 65532 4

/-- The capacity-4 buffer holding exactly one entry, at sequence number 0. -/
def oneEntryBuf : SequenceBuffer Nat :=
  ((SequenceBuffer.with_capacity Nat 4).insert 0 42).2

lemma oneEntryBuf_eq :
    oneEntryBuf = SequenceBuffer.mk 1 [some 0, none, none, none]
      [some 42, none, none, none] := by
  decide

lemma oneEntryBuf_existsb_pos (q : Nat) (h1 : 1 ≤ q) :
    oneEntryBuf.existsb q = false := by
  apply Bool.eq_false_iff.2
  intro hc
  have hc' := (SequenceBuffer.existsb_iff _ q).1 hc
  rw [oneEntryBuf_eq] at hc'
  have hidx : (SequenceBuffer.mk 1 [some 0, none, none, none]
      [some 42, none, none, none] : SequenceBuffer Nat).index q = q % 4 := rfl
  have hproj : (SequenceBuffer.mk 1 [some 0, none, none, none]
      [some 42, none, none, none] : SequenceBuffer Nat).entry_sequences
      = [some 0, none, none, none] := rfl
  rw [hidx, hproj] at hc'
  have h4 : q % 4 = 0 ∨ q % 4 = 1 ∨ q % 4 = 2 ∨ q % 4 = 3 := by omega
  rcases h4 with h | h | h | h <;> rw [h] at hc' <;> simp at hc'
  omega

lemma oneEntryBuf_get_pos (q : Nat) (h1 : 1 ≤ q) :
    oneEntryBuf.get q = none := by
  unfold SequenceBuffer.get
  rw [oneEntryBuf_existsb_pos q h1]
  simp

lemma oneEntryBuf_scan : ∀ (f : Nat), 2 ≤ f → ∀ (i c : Nat), 1 ≤ i →
    i + f = 65537 →
    SequenceIterator.next oneEntryBuf ⟨i, c⟩ f
      = some (some 42, ⟨1, (c + f * (2 ^ 64 - 1)) % 2 ^ 64⟩) := by
  intro f
  induction f with
  | zero => intro h2; omega
  | succ f ih =>
    intro h2 i c h1 hif
    rw [next_step, oneEntryBuf_get_pos i h1]
    show SequenceIterator.next oneEntryBuf
      ⟨(i + 1) % 65536, (c + (2 ^ 64 - 1)) % 2 ^ 64⟩ f = _
    by_cases hlast : i = 65535
    · subst hlast
      have hf : f = 1 := by omega
      subst hf
      rw [show (65535 + 1) % 65536 = 0 from by norm_num]
      rw [next_step]
      rw [show oneEntryBuf.get 0 = some 42 from by decide]
      show some (some 42, _) = some (some 42, _)
      have hcount : ((c + (2 ^ 64 - 1)) % 2 ^ 64 + (2 ^ 64 - 1)) % 2 ^ 64
          = (c + 2 * (2 ^ 64 - 1)) % 2 ^ 64 := by
        omega
      rw [show (0 + 1) % 65536 = 1 from by norm_num, hcount]
    · have hmod : (i + 1) % 65536 = i + 1 := by omega
      rw [hmod]
      rw [ih (by omega) (i + 1) ((c + (2 ^ 64 - 1)) % 2 ^ 64) (by omega)
        (by omega)]
      have hcount : ((c + (2 ^ 64 - 1)) % 2 ^ 64 + f * (2 ^ 64 - 1)) % 2 ^ 64
          = (c + (f + 1) * (2 ^ 64 - 1)) % 2 ^ 64 := by
        rw [Nat.mod_add_mod]
        congr 1
        ring
      rw [hcount]

/-- C4: the iterator yields duplicates on the code.  On a capacity-4 buffer
holding exactly the entry with sequence number 0, `next` first yields that
entry after scanning from `oldest() = 65533` (4 advances), and then —
because the continuation guard never stops the loop — the very same call
sequence yields the same entry a second time after wrapping the full 16-bit
index space, instead of terminating after `C` advances with each live entry
yielded exactly once. -/
theorem c4_iterator_duplicates :
    SequenceIterator.next oneEntryBuf oneEntryBuf.iter 4
      = some (some 42, ⟨1, 0⟩) ∧
    (SequenceIterator.next oneEntryBuf ⟨1, 0⟩ 65536).map
        (fun r => (r.1, r.2.index)) = some (some 42, 1) := by
  constructor
  · decide
  · rw [oneEntryBuf_scan 65536 (by omega) 1 0 (by omega) (by omega)]
    rfl

/-! ## Wraparound equivalence (C8) -/

/-- The chain inserting 65534, 65535, 0, 1 into a fresh capacity-4 buffer. -/
def chainA1 := (SequenceBuffer.with_capacity Nat 4).insert 65534 101

def chainA2 := chainA1.2.insert 65535 102

def chainA3 := chainA2.2.insert 0 103

def chainA4 := chainA3.2.insert 1 104

/-- The chain inserting 2, 3, 4, 5 into a fresh capacity-4 buffer. -/
def chainB1 := (SequenceBuffer.with_capacity Nat 4).insert 2 101

def chainB2 := chainB1.2.insert 3 102

def chainB3 := chainB2.2.insert 4 103

def chainB4 := chainB3.2.insert 5 104

lemma tag_shift_eq (t s : Nat) (ht : t < 65536) (hs : s < 65536) :
    (((t + 4) % 65536 : Nat) == (s + 4) % 65536) = (t == s) := by
  cases hb : (t == s) with
  | false =>
    have hne : ¬ t = s := by simpa using hb
    have h1 : ¬ (t + 4) % 65536 = (s + 4) % 65536 := by omega
    simpa using h1
  | true =>
    have heq : t = s := by simpa using hb
    subst heq
    simp

lemma bound_none : ∀ x : Nat, (none : Option Nat) = some x → x < 65536 :=
  fun _ hx => Option.noConfusion hx

lemma bound_some (t : Nat) (ht : t < 65536) :
    ∀ x : Nat, some t = some x → x < 65536 :=
  fun _ hx => (Option.some.inj hx) ▸ ht

lemma existsb_shift4 (hA hB : Nat) (a0 a1 a2 a3 : Option Nat)
    (eA eB : List (Option Nat)) (s : Nat) (hs : s < 65536)
    (h0 : ∀ x, a0 = some x → x < 65536) (h1 : ∀ x, a1 = some x → x < 65536)
    (h2 : ∀ x, a2 = some x → x < 65536) (h3 : ∀ x, a3 = some x → x < 65536) :
    (SequenceBuffer.mk hB [a0.map (fun t => (t + 4) % 65536),
        a1.map (fun t => (t + 4) % 65536), a2.map (fun t => (t + 4) % 65536),
        a3.map (fun t => (t + 4) % 65536)] eB).existsb ((s + 4) % 65536)
      = (SequenceBuffer.mk hA [a0, a1, a2, a3] eA).existsb s := by
  unfold SequenceBuffer.existsb SequenceBuffer.index SequenceBuffer.capacity
  dsimp only
  have hmod : (s + 4) % 65536 % 4 = s % 4 := by omega
  have hlenA : ([a0, a1, a2, a3] : List (Option Nat)).length = 4 := rfl
  have hlenB : ([Option.map (fun t => (t + 4) % 65536) a0,
      Option.map (fun t => (t + 4) % 65536) a1,
      Option.map (fun t => (t + 4) % 65536) a2,
      Option.map (fun t => (t + 4) % 65536) a3] : List (Option Nat)).length
      = 4 := rfl
  rw [hlenA, hlenB, hmod]
  have h4 : s % 4 = 0 ∨ s % 4 = 1 ∨ s % 4 = 2 ∨ s % 4 = 3 := by omega
  rcases h4 with h | h | h | h <;> rw [h]
  · cases a0 with
    | none => rfl
    | some t => exact tag_shift_eq t s (h0 t rfl) hs
  · cases a1 with
    | none => rfl
    | some t => exact tag_shift_eq t s (h1 t rfl) hs
  · cases a2 with
    | none => rfl
    | some t => exact tag_shift_eq t s (h2 t rfl) hs
  · cases a3 with
    | none => rfl
    | some t => exact tag_shift_eq t s (h3 t rfl) hs

lemma chainA1_eq : chainA1.2 = SequenceBuffer.mk 0
    [none, none, some 65534, none] [none, none, some 101, none] := by decide

lemma chainA2_eq : chainA2.2 = SequenceBuffer.mk 0
    [none, none, some 65534, some 65535] [none, none, some 101, some 102] := by
  decide

lemma chainA3_eq : chainA3.2 = SequenceBuffer.mk 1
    [some 0, none, some 65534, some 65535]
    [some 103, none, some 101, some 102] := by decide

lemma chainA4_eq : chainA4.2 = SequenceBuffer.mk 2
    [some 0, some 1, some 65534, some 65535]
    [some 103, some 104, some 101, some 102] := by decide

lemma chainB1_eq : chainB1.2 = SequenceBuffer.mk 3
    [none, none, some 2, none] [none, none, some 101, none] := by decide

lemma chainB2_eq : chainB2.2 = SequenceBuffer.mk 4
    [none, none, some 2, some 3] [none, none, some 101, some 102] := by decide

lemma chainB3_eq : chainB3.2 = SequenceBuffer.mk 5
    [some 4, none, some 2, some 3] [some 103, none, some 101, some 102] := by
  decide

lemma chainB4_eq : chainB4.2 = SequenceBuffer.mk 6
    [some 4, some 5, some 2, some 3]
    [some 103, some 104, some 101, some 102] := by decide

lemma c8_step1 (s : Nat) (hs : s < 65536) :
    chainA1.2.existsb s = chainB1.2.existsb ((s + 4) % 65536) := by
  rw [chainA1_eq, chainB1_eq]
  exact (existsb_shift4 0 3 none none (some 65534) none _ _ s hs
    bound_none bound_none (bound_some 65534 (by omega)) bound_none).symm

lemma c8_step2 (s : Nat) (hs : s < 65536) :
    chainA2.2.existsb s = chainB2.2.existsb ((s + 4) % 65536) := by
  rw [chainA2_eq, chainB2_eq]
  exact (existsb_shift4 0 4 none none (some 65534) (some 65535) _ _ s hs
    bound_none bound_none (bound_some 65534 (by omega))
    (bound_some 65535 (by omega))).symm

lemma c8_step3 (s : Nat) (hs : s < 65536) :
    chainA3.2.existsb s = chainB3.2.existsb ((s + 4) % 65536) := by
  rw [chainA3_eq, chainB3_eq]
  exact (existsb_shift4 1 5 (some 0) none (some 65534) (some 65535) _ _ s hs
    (bound_some 0 (by omega)) bound_none (bound_some 65534 (by omega))
    (bound_some 65535 (by omega))).symm

lemma c8_step4 (s : Nat) (hs : s < 65536) :
    chainA4.2.existsb s = chainB4.2.existsb ((s + 4) % 65536) := by
  rw [chainA4_eq, chainB4_eq]
  exact (existsb_shift4 2 6 (some 0) (some 1) (some 65534) (some 65535) _ _ s hs
    (bound_some 0 (by omega)) (bound_some 1 (by omega))
    (bound_some 65534 (by omega)) (bound_some 65535 (by omega))).symm

/-- C8: inserting 65534, 65535, 0, 1 into a fresh capacity-4 buffer behaves
identically to inserting 2, 3, 4, 5 into a fresh capacity-4 buffer: every
insert returns `true` in both chains, and after each corresponding step the
two buffers answer `exists` identically under the shift `s ↦ s + 4 mod
2^16` (in particular the same entries are evicted — here, none). -/
theorem c8_wraparound_equivalence :
    (chainA1.1 = true ∧ chainA2.1 = true ∧ chainA3.1 = true ∧
     chainA4.1 = true ∧ chainB1.1 = true ∧ chainB2.1 = true ∧
     chainB3.1 = true ∧ chainB4.1 = true) ∧
    (∀ s : Nat, s < 65536 →
      (chainA1.2.existsb s = chainB1.2.existsb ((s + 4) % 65536) ∧
       chainA2.2.existsb s = chainB2.2.existsb ((s + 4) % 65536) ∧
       chainA3.2.existsb s = chainB3.2.existsb ((s + 4) % 65536) ∧
       chainA4.2.existsb s = chainB4.2.existsb ((s + 4) % 65536))) := by
  refine ⟨by decide, fun s hs =>
    ⟨c8_step1 s hs, c8_step2 s hs, c8_step3 s hs, c8_step4 s hs⟩⟩

/-- C8 witness: the shifted `exists` agreement at `s = 65534` after the
final inserts of both chains. -/
theorem c8_wraparound_equivalence_witness :
    chainA4.2.existsb 65534 = chainB4.2.existsb ((65534 + 4) % 65536) :=
  (c8_wraparound_equivalence.2 65534 (by decide)).2.2.2

/-! ## The parallel-array invariant (C10) -/

namespace SequenceBuffer

variable {T : Type}

/-- C10's invariant: the two arrays have the same length and are occupied in
lockstep, and an occupied tag `t` at index `i` satisfies `t mod C = i`. -/
def SlotInv (b : SequenceBuffer T) : Prop :=
  b.entries.length = b.entry_sequences.length ∧
  ∀ i, i < b.entry_sequences.length →
    ((b.entry_sequences.getD i none).isSome = (b.entries.getD i none).isSome) ∧
    (∀ t, b.entry_sequences.getD i none = some t →
      t % b.entry_sequences.length = i)

lemma slotInv_replicate (n hn : Nat) :
    SlotInv (SequenceBuffer.mk hn (List.replicate n none)
      (List.replicate n (none : Option T))) := by
  constructor
  · simp
  · intro i hi
    constructor
    · show ((List.replicate n none).getD i none).isSome
        = ((List.replicate n (none : Option T)).getD i none).isSome
      rw [getD_replicate_none, getD_replicate_none]
      rfl
    · intro t ht
      rw [show (SequenceBuffer.mk hn (List.replicate n none)
        (List.replicate n (none : Option T))).entry_sequences
        = List.replicate n none from rfl, getD_replicate_none] at ht
      exact Option.noConfusion ht

lemma slotInv_set_none (b : SequenceBuffer T) (i0 : Nat) (h : SlotInv b) :
    SlotInv { b with entries := b.entries.set i0 none,
                     entry_sequences := b.entry_sequences.set i0 none } := by
  obtain ⟨hlen, hsl⟩ := h
  constructor
  · show (b.entries.set i0 none).length = (b.entry_sequences.set i0 none).length
    simp [hlen]
  · intro i hi
    have hi' : i < b.entry_sequences.length := by
      simpa using hi
    constructor
    · show ((b.entry_sequences.set i0 none).getD i none).isSome
        = ((b.entries.set i0 none).getD i none).isSome
      by_cases hii : i0 = i
      · subst hii
        rw [getD_set_self _ _ _ _ hi', getD_set_self _ _ _ _ (by rw [hlen]; exact hi')]
        rfl
      · rw [getD_set_ne _ _ _ _ _ hii, getD_set_ne _ _ _ _ _ hii]
        exact (hsl i hi').1
    · intro t ht
      have ht' : (b.entry_sequences.set i0 none).getD i none = some t := ht
      show t % (b.entry_sequences.set i0 none).length = i
      rw [List.length_set]
      by_cases hii : i0 = i
      · subst hii
        rw [getD_set_self _ _ _ _ hi'] at ht'
        exact Option.noConfusion ht'
      · rw [getD_set_ne _ _ _ _ _ hii] at ht'
        exact (hsl i hi').2 t ht'

lemma slotInv_wipe (b : SequenceBuffer T) (h : SlotInv b) :
    SlotInv { b with entries := b.entries.map fun _ => (none : Option T),
                     entry_sequences := b.entry_sequences.map fun _ => (none : Option Nat) } := by
  obtain ⟨hlen, _⟩ := h
  constructor
  · show (b.entries.map fun _ => (none : Option T)).length
      = (b.entry_sequences.map fun _ => (none : Option Nat)).length
    simp [hlen]
  · intro i _
    constructor
    · show ((b.entry_sequences.map fun _ => (none : Option Nat)).getD i none).isSome
        = ((b.entries.map fun _ => (none : Option T)).getD i none).isSome
      rw [getD_map_none, getD_map_none]
      rfl
    · intro t ht
      have ht' : (b.entry_sequences.map fun _ => (none : Option Nat)).getD i none
          = some t := ht
      rw [getD_map_none] at ht'
      exact Option.noConfusion ht'

lemma slotInv_write (b : SequenceBuffer T) (s : Nat) (v : T) (h : SlotInv b) :
    SlotInv { b with
      entry_sequences := b.entry_sequences.set (b.index s) (some s),
      entries := b.entries.set (b.index s) (some v) } := by
  obtain ⟨hlen, hsl⟩ := h
  constructor
  · show (b.entries.set (b.index s) (some v)).length
      = (b.entry_sequences.set (b.index s) (some s)).length
    simp [hlen]
  · intro i hi
    have hi' : i < b.entry_sequences.length := by
      simpa using hi
    have hpos : 0 < b.entry_sequences.length :=
      Nat.lt_of_le_of_lt (Nat.zero_le i) hi'
    constructor
    · show ((b.entry_sequences.set (b.index s) (some s)).getD i none).isSome
        = ((b.entries.set (b.index s) (some v)).getD i none).isSome
      by_cases hii : b.index s = i
      · subst hii
        have hilt : b.index s < b.entry_sequences.length := by
          show s % b.capacity < b.entry_sequences.length
          exact Nat.mod_lt s hpos
        rw [getD_set_self _ _ _ _ hilt,
          getD_set_self _ _ _ _ (by rw [hlen]; exact hilt)]
        rfl
      · rw [getD_set_ne _ _ _ _ _ hii, getD_set_ne _ _ _ _ _ hii]
        exact (hsl i hi').1
    · intro t ht
      have ht' : (b.entry_sequences.set (b.index s) (some s)).getD i none
          = some t := ht
      show t % (b.entry_sequences.set (b.index s) (some s)).length = i
      rw [List.length_set]
      by_cases hii : b.index s = i
      · subst hii
        have hilt : b.index s < b.entry_sequences.length := by
          show s % b.capacity < b.entry_sequences.length
          exact Nat.mod_lt s hpos
        rw [getD_set_self _ _ _ _ hilt] at ht'
        have hts : t = s := (Option.some.inj ht').symm
        subst hts
        rfl
      · rw [getD_set_ne _ _ _ _ _ hii] at ht'
        exact (hsl i hi').2 t ht'

lemma slotInv_remove (b : SequenceBuffer T) (s : Nat) (h : SlotInv b) :
    SlotInv (b.remove s).2 := by
  by_cases he : b.existsb s = true
  · have heq : (b.remove s).2 = SequenceBuffer.mk b.sequence_num
        (b.entry_sequences.set (b.index s) none)
        (b.entries.set (b.index s) none) := by
      rw [remove]
      simp [he]
    rw [heq]
    exact slotInv_set_none b (b.index s) h
  · rw [remove_tags_of_not b s he]
    exact h

lemma slotInv_removeRange (L : List Nat) : ∀ (b : SequenceBuffer T),
    SlotInv b → SlotInv (b.removeRange L) := by
  induction L with
  | nil => intro b h; exact h
  | cons x rest ih =>
    intro b h
    rw [removeRange]
    exact ih _ (slotInv_remove b (x % 65536) h)

lemma slotInv_remove_entries (b : SequenceBuffer T) (f : Nat) (h : SlotInv b) :
    SlotInv (b.remove_entries f) := by
  rw [remove_entries_eq]
  by_cases hc : (if f < b.sequence_num then f + 65536 else f) - b.sequence_num
      < b.capacity
  · rw [if_pos hc]
    exact slotInv_removeRange _ b h
  · rw [if_neg hc]
    exact slotInv_wipe b h

lemma slotInv_advance (b : SequenceBuffer T) (s : Nat) (h : SlotInv b) :
    SlotInv (b.advance_sequence s) := by
  rw [advance_sequence_eq]
  split
  · exact slotInv_remove_entries b s h
  · exact h

lemma slotInv_insert (b : SequenceBuffer T) (s : Nat) (v : T) (h : SlotInv b) :
    SlotInv (b.insert s v).2 := by
  by_cases hs : sequence_less_than s (wsub b.sequence_num b.capacity) = true
  · rw [insert_eq, if_pos hs]
    exact h
  · rw [insert_snd_eq b s v (Bool.eq_false_iff.2 hs)]
    exact slotInv_write _ s v (slotInv_advance b s h)

lemma slotInv_remove_until (b : SequenceBuffer T) (f : Nat) (h : SlotInv b) :
    SlotInv (b.remove_until f) := by
  rw [remove_until]
  exact slotInv_removeRange _ b h

lemma slotInv_clear (b : SequenceBuffer T) (_h : SlotInv b) :
    SlotInv b.clear :=
  slotInv_replicate b.capacity 0

end SequenceBuffer

/-- Buffers reachable from `with_capacity` by the public mutating API. -/
inductive Reachable (T : Type) : SequenceBuffer T → Prop
  | init (size : Nat) : Reachable T (SequenceBuffer.with_capacity T size)
  | insert {b : SequenceBuffer T} (s : Nat) (v : T) :
      Reachable T b → Reachable T (b.insert s v).2
  | remove {b : SequenceBuffer T} (s : Nat) :
      Reachable T b → Reachable T (b.remove s).2
  | remove_until {b : SequenceBuffer T} (f : Nat) :
      Reachable T b → Reachable T (b.remove_until f)
  | clear {b : SequenceBuffer T} : Reachable T b → Reachable T b.clear

lemma reachable_slotInv {T : Type} (b : SequenceBuffer T)
    (h : Reachable T b) : SequenceBuffer.SlotInv b := by
  induction h with
  | init size => exact SequenceBuffer.slotInv_replicate size 0
  | insert s v _ ih => exact SequenceBuffer.slotInv_insert _ s v ih
  | remove s _ ih => exact SequenceBuffer.slotInv_remove _ s ih
  | remove_until f _ ih => exact SequenceBuffer.slotInv_remove_until _ f ih
  | clear _ ih => exact SequenceBuffer.slotInv_clear _ ih

/-- C10: after any sequence of operations on a buffer of positive capacity,
the two parallel arrays are occupied in lockstep, every occupied tag `t` at
index `i` satisfies `t mod C = i`, `exists` implies `get` returns a value,
distinct sequence numbers with `exists` true occupy distinct slots, and at
most `C` sequence numbers satisfy `exists` at any time. -/
theorem c10_parallel_arrays_invariant (b : SequenceBuffer Nat)
    (hb : Reachable Nat b) (hcap : 0 < b.capacity) :
    (b.entries.length = b.entry_sequences.length ∧
     ∀ i, i < b.capacity →
       ((b.entry_sequences.getD i none).isSome
         = (b.entries.getD i none).isSome) ∧
       (∀ t, b.entry_sequences.getD i none = some t → t % b.capacity = i)) ∧
    (∀ s, b.existsb s = true → (b.get s).isSome = true) ∧
    (∀ s1 s2, b.existsb s1 = true → b.existsb s2 = true →
      s1 % b.capacity = s2 % b.capacity → s1 = s2) ∧
    ((Finset.range 65536).filter (fun s => b.existsb s = true)).card
      ≤ b.capacity := by
  obtain ⟨hlen, hsl⟩ := reachable_slotInv b hb
  have hinj : ∀ s1 s2, b.existsb s1 = true → b.existsb s2 = true →
      s1 % b.capacity = s2 % b.capacity → s1 = s2 := by
    intro s1 s2 h1 h2 h12
    have e1 := (SequenceBuffer.existsb_iff b s1).1 h1
    have e2 := (SequenceBuffer.existsb_iff b s2).1 h2
    rw [SequenceBuffer.index] at e1 e2
    rw [h12] at e1
    rw [e1] at e2
    exact Option.some.inj e2
  refine ⟨⟨hlen, hsl⟩, ?_, hinj, ?_⟩
  · intro s hs
    have he := (SequenceBuffer.existsb_iff b s).1 hs
    have hidx : b.index s < b.entry_sequences.length :=
      SequenceBuffer.getD_some_lt _ _ _ he
    have hslot := (hsl (b.index s) hidx).1
    rw [he] at hslot
    rw [SequenceBuffer.get, hs]
    simp only [if_true, ite_true]
    rw [← hslot]
    rfl
  · have hmaps : ∀ s ∈ (Finset.range 65536).filter
        (fun s => b.existsb s = true), s % b.capacity ∈ Finset.range b.capacity := by
      intro s _
      rw [Finset.mem_range]
      exact Nat.mod_lt s hcap
    have hinjOn : Set.InjOn (fun s => s % b.capacity)
        ((Finset.range 65536).filter (fun s => b.existsb s = true)) := by
      intro s1 h1 s2 h2 h12
      simp only [Finset.coe_filter, Set.mem_setOf_eq, Finset.mem_range] at h1 h2
      exact hinj s1 s2 h1.2 h2.2 h12
    have := Finset.card_le_card_of_injOn (fun s => s % b.capacity) hmaps hinjOn
    simpa using this

/-- C10 witness: the lockstep-length fact on the reachable buffer obtained by
one insert into a fresh capacity-4 buffer. -/
theorem c10_parallel_arrays_invariant_witness :
    ((SequenceBuffer.with_capacity Nat 4).insert 0 7).2.entries.length
      = ((SequenceBuffer.with_capacity Nat 4).insert 0 7).2.entry_sequences.length :=
  (c10_parallel_arrays_invariant _
    (Reachable.insert 0 7 (Reachable.init 4)) (by decide)).1.1
